import Mathlib

/-
Verification of the worklog-allocation core of `timesheet.py`.

The program distributes a daily budget of seconds over a weighted set of
Jira issues in whole-hour chunks.  This file gives a shallow embedding of
the pure logic of that program:

  * `build_day_payloads`  (timesheet.py, lines 365-398): the allocator loop;
  * `working_days`        (lines 355-362): Monday-to-Friday date enumeration;
  * `subtract_one_month`  (lines 223-230): previous-month date computation;
  * `process_day`         (lines 513-531): the per-day skip-or-allocate
    decision made by `main`'s fill loop.

Python integers are embedded as `Int` (and as `Nat` where the source can
only ever hold non-negative values, such as calendar fields).  Python `//`
and `%` on the values appearing here always have a positive right operand,
where floor division and Euclidean division coincide, so they are embedded
as Lean's `Int` division and `%` (Euclidean).

Randomness: the source draws `random.randint(1, max_hours)` and
`random.choices(issue_keys, weights=issue_weights, k=1)[0]` from Python's
global generator.  Each call is embedded as consuming one value from an
arbitrary oracle stream `Nat → Nat`; the draw is reduced into the exact
range of the corresponding library call (`1 + r % max_hours` realises every
value of `randint(1, max_hours)` and nothing else when `max_hours ≥ 1`;
`keys.getD (c % keys.length) ""` realises every index of a non-empty
population, which is the support of `random.choices` when every weight is
positive).  Quantifying over all oracle streams therefore quantifies over
exactly the executions the library calls permit under the documented
preconditions.
-/

/-- An issue as collected by the run: `Issue` dataclass (timesheet.py,
lines 61-65).  The weight is the 1-5 integer assigned interactively. -/
structure Issue where
  key : String
  summary : String
  weight : Int
deriving DecidableEq

/-- A proleptic-Gregorian calendar date, modelling Python's
`datetime.date` triple of year, month and day. -/
structure Date where
  year : Nat
  month : Nat
  day : Nat
deriving DecidableEq

/-- The aware start timestamp written into a payload's `started` field.
`build_day_payloads` (lines 377-379) builds
`datetime.combine(day, time(10, 0, 0)).replace(tzinfo=timezone(timedelta(hours=3)))`
and afterwards only adds whole-second `timedelta`s to it, so the datetime
is embedded as the base day together with the (un-normalised) number of
seconds since 00:00:00 local time of that day, plus the fixed UTC offset
in seconds.  Ordering and equality of these timestamps agree with
Python's, since the offset map is strictly monotone. -/
structure Started where
  day : Date
  offsetSeconds : Int
  tzSeconds : Int
deriving DecidableEq

/-- The worklog payload dict built at lines 388-392 of the source.  The
`started` strftime string is represented by the timestamp it denotes. -/
structure Payload where
  comment : String
  started : Started
  timeSpentSeconds : Int
deriving DecidableEq

/-- The duration drawn for one loop iteration of `build_day_payloads`
(lines 382-385 of the source):

    max_allowed = min(max_chunk_seconds, remaining_seconds)
    max_hours = max_allowed // hour_seconds
    chunk_hours = random.randint(1, max_hours)
    chunk_seconds = chunk_hours * hour_seconds

with `randint` embedded through the oracle value `randNat i` as described
in the header. -/
def chunk_seconds_of (randNat : Nat → Nat) (i : Nat)
    (max_chunk_seconds remaining_seconds : Int) : Int :=
  (1 + (randNat i : Int) % (min max_chunk_seconds remaining_seconds / 3600)) * 3600

/-- The issue key drawn for one loop iteration (line 386 of the source):
`random.choices(issue_keys, weights=issue_weights, k=1)[0]`, embedded
through the oracle value `choiceNat i`.  With a non-empty population and
positive weights the support of `choices` is the whole key list, which is
exactly the range of this embedding. -/
def chosen_issue_key (choiceNat : Nat → Nat) (i : Nat) (issue_keys : List String) : String :=
  issue_keys.getD (choiceNat i % issue_keys.length) ""

/-- The `while remaining_seconds >= hour_seconds` loop of
`build_day_payloads` (lines 381-397).  `fuel` is a structural-recursion
bound on the number of iterations; since every chunk is at least 3600
seconds, `remaining_seconds.toNat` iterations always suffice (this is
proved, not assumed: see `build_day_payloads_go_sum_ge`, whose fuel
hypothesis `rem ≤ 3600 * fuel` certifies that the loop runs to its
`remaining < 3600` exit before the fuel runs out).  `i` is the index of
the next oracle values to consume, `current_offset` the running clock in
seconds since 00:00 local of `day` (initially 10:00, i.e. 36000). -/
def build_day_payloads_go (randNat choiceNat : Nat → Nat) (issue_keys : List String)
    (max_chunk_seconds : Int) (day : Date) :
    Nat → Nat → Int → Int → List (String × Payload)
  | 0, _, _, _ => []
  | fuel + 1, i, current_offset, remaining_seconds =>
    if 3600 ≤ remaining_seconds then
      (chosen_issue_key choiceNat i issue_keys,
        { comment := "Work on task " ++ chosen_issue_key choiceNat i issue_keys
          started := { day := day, offsetSeconds := current_offset, tzSeconds := 3 * 3600 }
          timeSpentSeconds := chunk_seconds_of randNat i max_chunk_seconds remaining_seconds }) ::
      build_day_payloads_go randNat choiceNat issue_keys max_chunk_seconds day
        fuel (i + 1)
        (current_offset + chunk_seconds_of randNat i max_chunk_seconds remaining_seconds)
        (remaining_seconds - chunk_seconds_of randNat i max_chunk_seconds remaining_seconds)
    else []

/-- `build_day_payloads` (timesheet.py, lines 365-398).  The two oracle
streams stand for the `random.randint` and `random.choices` draws.  The
issue-key and issue-weight lists are formed exactly as at lines 373-374;
the weights influence only the distribution of the draws, which the
oracle abstraction already ranges over. -/
def build_day_payloads (randNat choiceNat : Nat → Nat) (day : Date) (issues : List Issue)
    (remaining_seconds : Int) (max_task_hours : Int) : List (String × Payload) :=
  let hour_seconds : Int := 3600
  let max_chunk_seconds := max_task_hours * hour_seconds
  let issue_keys := issues.map (fun x => x.key)
  build_day_payloads_go randNat choiceNat issue_keys max_chunk_seconds day
    remaining_seconds.toNat 0 (10 * 3600) remaining_seconds

/-- Sum of the `timeSpentSeconds` of a payload list. -/
def sumDur : List (String × Payload) → Int
  | [] => 0
  | p :: l => p.2.timeSpentSeconds + sumDur l

theorem sumDur_nil : sumDur [] = 0 := rfl

theorem sumDur_cons (p : String × Payload) (l : List (String × Payload)) :
    sumDur (p :: l) = p.2.timeSpentSeconds + sumDur l := rfl

/-- Every drawn chunk is at least one hour: `chunk_hours ≥ 1` holds for
every oracle value because a Euclidean remainder of a non-negative
integer is never negative. -/
theorem chunk_seconds_ge (randNat : Nat → Nat) (i : Nat) (mc rem : Int) :
    3600 ≤ chunk_seconds_of randNat i mc rem := by
  unfold chunk_seconds_of
  have h0 : (0 : Int) ≤ (randNat i : Int) := Int.natCast_nonneg _
  rcases eq_or_ne (min mc rem / 3600) 0 with h | h
  · rw [h, Int.emod_zero]
    nlinarith
  · have := Int.emod_nonneg (randNat i : Int) h
    nlinarith

/-- When the per-entry cap and the remaining budget are both at least one
hour, the drawn chunk never exceeds `min max_chunk_seconds remaining_seconds`
(mirrors `chunk_hours ≤ max_hours` together with
`max_hours * 3600 ≤ max_allowed`). -/
theorem chunk_seconds_le (randNat : Nat → Nat) (i : Nat) (mc rem : Int)
    (hmc : 3600 ≤ mc) (hrem : 3600 ≤ rem) :
    chunk_seconds_of randNat i mc rem ≤ min mc rem := by
  unfold chunk_seconds_of
  have hm : (3600 : Int) ≤ min mc rem := le_min hmc hrem
  have hpos : (0 : Int) < min mc rem / 3600 := by omega
  have hx0 : (0 : Int) ≤ (randNat i : Int) % (min mc rem / 3600) :=
    Int.emod_nonneg _ (by omega)
  have hx1 : (randNat i : Int) % (min mc rem / 3600) < min mc rem / 3600 :=
    Int.emod_lt_of_pos _ hpos
  omega

/-- The drawn chunk is a positive whole number of hours. -/
theorem chunk_seconds_hours (randNat : Nat → Nat) (i : Nat) (mc rem : Int) :
    ∃ k : Int, 1 ≤ k ∧ chunk_seconds_of randNat i mc rem = 3600 * k := by
  refine ⟨1 + (randNat i : Int) % (min mc rem / 3600), ?_, by unfold chunk_seconds_of; ring⟩
  have h := chunk_seconds_ge randNat i mc rem
  unfold chunk_seconds_of at h
  nlinarith

/-- If the remaining budget is below one hour the loop body never runs. -/
theorem build_day_payloads_go_nil (randNat choiceNat : Nat → Nat) (keys : List String)
    (mc : Int) (day : Date) (fuel i : Nat) (t rem : Int) (h : rem < 3600) :
    build_day_payloads_go randNat choiceNat keys mc day fuel i t rem = [] := by
  match fuel with
  | 0 => rfl
  | fuel + 1 =>
    rw [build_day_payloads_go, if_neg (by omega)]

/-- Upper budget invariant of the loop: the total emitted time never
exceeds a non-negative remaining budget (each chunk is capped by
`min max_chunk_seconds remaining`). -/
theorem build_day_payloads_go_sum_le (randNat choiceNat : Nat → Nat) (keys : List String)
    (mc : Int) (day : Date) (hmc : 3600 ≤ mc) :
    ∀ fuel i (t rem : Int), 0 ≤ rem →
      sumDur (build_day_payloads_go randNat choiceNat keys mc day fuel i t rem) ≤ rem := by
  intro fuel
  induction fuel with
  | zero => intro i t rem h0; simpa [build_day_payloads_go, sumDur] using h0
  | succ n ih =>
    intro i t rem h0
    by_cases h : (3600 : Int) ≤ rem
    · rw [build_day_payloads_go, if_pos h, sumDur_cons]
      have hge := chunk_seconds_ge randNat i mc rem
      have hle := chunk_seconds_le randNat i mc rem hmc h
      have hmin : min mc rem ≤ rem := min_le_right _ _
      have hrec := ih (i + 1) (t + chunk_seconds_of randNat i mc rem)
        (rem - chunk_seconds_of randNat i mc rem) (by omega)
      simpa using by omega
    · rw [build_day_payloads_go, if_neg h, sumDur_nil]; omega

/-- Lower budget invariant of the loop: with enough fuel for the loop to
reach its natural exit (`rem ≤ 3600 * fuel` suffices because every chunk
removes at least 3600 seconds), the loop leaves strictly less than one
hour unallocated. -/
theorem build_day_payloads_go_sum_ge (randNat choiceNat : Nat → Nat) (keys : List String)
    (mc : Int) (day : Date) :
    ∀ (fuel i : Nat) (t rem : Int), rem ≤ 3600 * (fuel : Int) →
      rem - 3599 ≤ sumDur (build_day_payloads_go randNat choiceNat keys mc day fuel i t rem) := by
  intro fuel
  induction fuel with
  | zero => intro i t rem h0; simp only [build_day_payloads_go, sumDur]; omega
  | succ n ih =>
    intro i t rem h0
    by_cases h : (3600 : Int) ≤ rem
    · rw [build_day_payloads_go, if_pos h, sumDur_cons]
      have hge := chunk_seconds_ge randNat i mc rem
      have hrec := ih (i + 1) (t + chunk_seconds_of randNat i mc rem)
        (rem - chunk_seconds_of randNat i mc rem) (by push_cast at h0 ⊢; omega)
      simpa using by omega
    · rw [build_day_payloads_go, if_neg h, sumDur_nil]; omega

/-- Every emitted duration is a positive whole-hour multiple bounded by
the per-entry cap. -/
theorem build_day_payloads_go_durations (randNat choiceNat : Nat → Nat) (keys : List String)
    (mc : Int) (day : Date) (hmc : 3600 ≤ mc) :
    ∀ fuel i (t rem : Int),
      ∀ p ∈ build_day_payloads_go randNat choiceNat keys mc day fuel i t rem,
        0 < p.2.timeSpentSeconds ∧
        (∃ k : Int, 1 ≤ k ∧ p.2.timeSpentSeconds = 3600 * k) ∧
        p.2.timeSpentSeconds ≤ mc := by
  intro fuel
  induction fuel with
  | zero => intro i t rem p hp; simp [build_day_payloads_go] at hp
  | succ n ih =>
    intro i t rem p hp
    by_cases h : (3600 : Int) ≤ rem
    · rw [build_day_payloads_go, if_pos h] at hp
      rcases List.mem_cons.mp hp with hhd | htl
      · subst hhd
        refine ⟨?_, chunk_seconds_hours randNat i mc rem, ?_⟩
        · have := chunk_seconds_ge randNat i mc rem; simpa using by omega
        · have hle := chunk_seconds_le randNat i mc rem hmc h
          have : min mc rem ≤ mc := min_le_left _ _
          simpa using by omega
      · exact ih _ _ _ p htl
    · rw [build_day_payloads_go, if_neg h] at hp
      simp at hp

/-- The number of iterations is bounded: each one consumes at least one
hour of a non-negative budget. -/
theorem build_day_payloads_go_length (randNat choiceNat : Nat → Nat) (keys : List String)
    (mc : Int) (day : Date) (hmc : 3600 ≤ mc) :
    ∀ fuel i (t rem : Int), 0 ≤ rem →
      3600 * ((build_day_payloads_go randNat choiceNat keys mc day fuel i t rem).length : Int)
        ≤ rem := by
  intro fuel
  induction fuel with
  | zero => intro i t rem h0; simp [build_day_payloads_go]; omega
  | succ n ih =>
    intro i t rem h0
    by_cases h : (3600 : Int) ≤ rem
    · rw [build_day_payloads_go, if_pos h]
      have hge := chunk_seconds_ge randNat i mc rem
      have hle := chunk_seconds_le randNat i mc rem hmc h
      have hmin : min mc rem ≤ rem := min_le_right _ _
      have hrec := ih (i + 1) (t + chunk_seconds_of randNat i mc rem)
        (rem - chunk_seconds_of randNat i mc rem) (by omega)
      simp only [List.length_cons]
      push_cast at hrec ⊢
      omega
    · rw [build_day_payloads_go, if_neg h]
      simp; omega

/-- The total emitted time is always a multiple of one hour. -/
theorem build_day_payloads_go_dvd (randNat choiceNat : Nat → Nat) (keys : List String)
    (mc : Int) (day : Date) :
    ∀ fuel i (t rem : Int),
      (3600 : Int) ∣ sumDur (build_day_payloads_go randNat choiceNat keys mc day fuel i t rem) := by
  intro fuel
  induction fuel with
  | zero => intro i t rem; simp [build_day_payloads_go, sumDur]
  | succ n ih =>
    intro i t rem
    by_cases h : (3600 : Int) ≤ rem
    · rw [build_day_payloads_go, if_pos h, sumDur_cons]
      obtain ⟨k, _, hk⟩ := chunk_seconds_hours randNat i mc rem
      exact dvd_add (by simp [hk]) (ih _ _ _)
    · rw [build_day_payloads_go, if_neg h, sumDur_nil]
      exact dvd_zero _

/-- The first entry the loop emits (if any) starts exactly at the current
simulated clock, on the target day, in the fixed UTC+3 offset. -/
theorem build_day_payloads_go_head (randNat choiceNat : Nat → Nat) (keys : List String)
    (mc : Int) (day : Date) :
    ∀ (fuel i : Nat) (t rem : Int) p,
      (build_day_payloads_go randNat choiceNat keys mc day fuel i t rem).head? = some p →
        p.2.started.day = day ∧ p.2.started.offsetSeconds = t ∧
        p.2.started.tzSeconds = 3 * 3600 := by
  intro fuel i t rem p hp
  match fuel with
  | 0 => simp [build_day_payloads_go] at hp
  | fuel + 1 =>
    rw [build_day_payloads_go] at hp
    by_cases h : (3600 : Int) ≤ rem
    · rw [if_pos h] at hp
      simp only [List.head?_cons, Option.some.injEq] at hp
      subst hp
      exact ⟨rfl, rfl, rfl⟩
    · rw [if_neg h] at hp
      simp at hp

/-- Contiguity invariant: within the emitted list, each entry starts the
moment the previous one ends, on the same day. -/
theorem build_day_payloads_go_chain (randNat choiceNat : Nat → Nat) (keys : List String)
    (mc : Int) (day : Date) :
    ∀ fuel i (t rem : Int),
      List.Chain'
        (fun a b : String × Payload =>
          b.2.started.offsetSeconds = a.2.started.offsetSeconds + a.2.timeSpentSeconds ∧
          b.2.started.day = a.2.started.day)
        (build_day_payloads_go randNat choiceNat keys mc day fuel i t rem) := by
  intro fuel
  induction fuel with
  | zero => intro i t rem; simp [build_day_payloads_go]
  | succ n ih =>
    intro i t rem
    by_cases h : (3600 : Int) ≤ rem
    · rw [build_day_payloads_go, if_pos h]
      refine List.chain'_cons'.mpr ⟨?_, ih _ _ _⟩
      intro b hb
      have := build_day_payloads_go_head randNat choiceNat keys mc day n (i + 1)
        (t + chunk_seconds_of randNat i mc rem)
        (rem - chunk_seconds_of randNat i mc rem) b hb
      exact ⟨by rw [this.2.1], by rw [this.1]⟩
    · rw [build_day_payloads_go, if_neg h]
      simp

/-- Strictly increasing start clocks along the emitted list. -/
theorem build_day_payloads_go_mono (randNat choiceNat : Nat → Nat) (keys : List String)
    (mc : Int) (day : Date) :
    ∀ fuel i (t rem : Int),
      List.Chain'
        (fun a b : String × Payload =>
          a.2.started.offsetSeconds < b.2.started.offsetSeconds)
        (build_day_payloads_go randNat choiceNat keys mc day fuel i t rem) := by
  intro fuel
  induction fuel with
  | zero => intro i t rem; simp [build_day_payloads_go]
  | succ n ih =>
    intro i t rem
    by_cases h : (3600 : Int) ≤ rem
    · rw [build_day_payloads_go, if_pos h]
      refine List.chain'_cons'.mpr ⟨?_, ih _ _ _⟩
      intro b hb
      have hhd := build_day_payloads_go_head randNat choiceNat keys mc day n (i + 1)
        (t + chunk_seconds_of randNat i mc rem)
        (rem - chunk_seconds_of randNat i mc rem) b hb
      have hge := chunk_seconds_ge randNat i mc rem
      rw [hhd.2.1]
      simpa using by omega
    · rw [build_day_payloads_go, if_neg h]
      simp

/-- Wrapper-level lower budget bound: `build_day_payloads` always leaves
strictly less than one hour of the budget unallocated. -/
theorem build_day_payloads_sum_ge (randNat choiceNat : Nat → Nat) (day : Date)
    (issues : List Issue) (remaining_seconds max_task_hours : Int) :
    remaining_seconds - 3599 ≤
      sumDur (build_day_payloads randNat choiceNat day issues remaining_seconds max_task_hours) := by
  simp only [build_day_payloads]
  exact build_day_payloads_go_sum_ge randNat choiceNat _ _ day
    remaining_seconds.toNat 0 (10 * 3600) remaining_seconds (by omega)

/-- Wrapper-level upper budget bound. -/
theorem build_day_payloads_sum_le (randNat choiceNat : Nat → Nat) (day : Date)
    (issues : List Issue) (remaining_seconds max_task_hours : Int)
    (h0 : 0 ≤ remaining_seconds) (h1 : 1 ≤ max_task_hours) :
    sumDur (build_day_payloads randNat choiceNat day issues remaining_seconds max_task_hours)
      ≤ remaining_seconds := by
  simp only [build_day_payloads]
  exact build_day_payloads_go_sum_le randNat choiceNat _ _ day (by omega)
    remaining_seconds.toNat 0 (10 * 3600) remaining_seconds h0

/-- Claim C1: for every remaining budget `remainingSeconds ≥ 0`, every
per-entry maximum that is a positive whole number of hours, and every
non-empty issue list with positive weights, the total duration emitted by
`build_day_payloads` is at most `remainingSeconds` (hence strictly less
than `remainingSeconds + 3600`) and at least `remainingSeconds - 3599`:
the budget is exhausted to within one hour. -/
theorem C1_budget_within_one_hour (randNat choiceNat : Nat → Nat) (day : Date)
    (issues : List Issue) (remaining_seconds max_task_hours : Int)
    (h0 : 0 ≤ remaining_seconds) (h1 : 1 ≤ max_task_hours)
    (h2 : issues ≠ []) (h3 : ∀ x ∈ issues, 1 ≤ x.weight) :
    sumDur (build_day_payloads randNat choiceNat day issues remaining_seconds max_task_hours)
        ≤ remaining_seconds ∧
    sumDur (build_day_payloads randNat choiceNat day issues remaining_seconds max_task_hours)
        < remaining_seconds + 3600 ∧
    remaining_seconds - 3599 ≤
      sumDur (build_day_payloads randNat choiceNat day issues remaining_seconds max_task_hours) := by
  have hle := build_day_payloads_sum_le randNat choiceNat day issues
    remaining_seconds max_task_hours h0 h1
  have hge := build_day_payloads_sum_ge randNat choiceNat day issues
    remaining_seconds max_task_hours
  exact ⟨hle, by omega, hge⟩

/-- Sample oracle stream used by the concrete witnesses. -/
def zeroFn : Nat → Nat := fun _ => 0

/-- Sample issue list used by the concrete witnesses. -/
def sampleIssues : List Issue := [{ key := "A", summary := "s", weight := 1 }]

/-- Sample day used by the concrete witnesses. -/
def sampleDay : Date := ⟨2025, 1, 6⟩

/-- First pair emitted by
`build_day_payloads zeroFn zeroFn sampleDay sampleIssues 7200 2`. -/
def samplePair : String × Payload :=
  ("A", { comment := "Work on task A"
          started := { day := sampleDay, offsetSeconds := 36000, tzSeconds := 10800 }
          timeSpentSeconds := 3600 })

theorem C1_budget_within_one_hour_witness :
    sumDur (build_day_payloads zeroFn zeroFn sampleDay sampleIssues 7200 2) ≤ 7200 ∧
    sumDur (build_day_payloads zeroFn zeroFn sampleDay sampleIssues 7200 2) < 7200 + 3600 ∧
    7200 - 3599 ≤ sumDur (build_day_payloads zeroFn zeroFn sampleDay sampleIssues 7200 2) :=
  C1_budget_within_one_hour zeroFn zeroFn sampleDay sampleIssues 7200 2
    (by norm_num) (by norm_num) (by decide) (by decide)

/-- Claim C2: every entry emitted by `build_day_payloads` carries a
duration that is a positive multiple of 3600 seconds and does not exceed
the per-entry maximum `max_task_hours * 3600`. -/
theorem C2_whole_hour_durations (randNat choiceNat : Nat → Nat) (day : Date)
    (issues : List Issue) (remaining_seconds max_task_hours : Int)
    (h0 : 0 ≤ remaining_seconds) (h1 : 1 ≤ max_task_hours)
    (h2 : issues ≠ []) (h3 : ∀ x ∈ issues, 1 ≤ x.weight) :
    ∀ pr ∈ build_day_payloads randNat choiceNat day issues remaining_seconds max_task_hours,
      0 < pr.2.timeSpentSeconds ∧
      (∃ k : Int, 1 ≤ k ∧ pr.2.timeSpentSeconds = 3600 * k) ∧
      pr.2.timeSpentSeconds ≤ max_task_hours * 3600 := by
  intro pr hpr
  simp only [build_day_payloads] at hpr
  exact build_day_payloads_go_durations randNat choiceNat _ _ day (by omega)
    remaining_seconds.toNat 0 (10 * 3600) remaining_seconds pr hpr

theorem C2_whole_hour_durations_witness :
    0 < samplePair.2.timeSpentSeconds ∧
    (∃ k : Int, 1 ≤ k ∧ samplePair.2.timeSpentSeconds = 3600 * k) ∧
    samplePair.2.timeSpentSeconds ≤ 2 * 3600 :=
  C2_whole_hour_durations zeroFn zeroFn sampleDay sampleIssues 7200 2
    (by norm_num) (by norm_num) (by decide) (by decide) samplePair (by decide)

/-- Claim C3: whenever the remaining budget is below one hour (including
zero and negative budgets) the allocator emits nothing, for any day,
issue list and per-entry maximum. -/
theorem C3_empty_below_one_hour (randNat choiceNat : Nat → Nat) (day : Date)
    (issues : List Issue) (remaining_seconds max_task_hours : Int)
    (h : remaining_seconds < 3600) :
    build_day_payloads randNat choiceNat day issues remaining_seconds max_task_hours = [] := by
  simp only [build_day_payloads]
  exact build_day_payloads_go_nil randNat choiceNat _ _ day _ 0 (10 * 3600)
    remaining_seconds h

theorem C3_empty_below_one_hour_witness :
    build_day_payloads zeroFn zeroFn sampleDay sampleIssues (-5) 2 = [] :=
  C3_empty_below_one_hour zeroFn zeroFn sampleDay sampleIssues (-5) 2 (by norm_num)

/-- Claim C4: the allocator loop terminates (it is realised below as a
total function whose fuel provably never runs out before the
`remaining < 3600` exit, see `build_day_payloads_go_sum_ge`), and the
number of emitted entries is at most `⌊remainingSeconds / 3600⌋`, because
each iteration removes at least 3600 seconds from the budget. -/
theorem C4_entry_count_bounded (randNat choiceNat : Nat → Nat) (day : Date)
    (issues : List Issue) (remaining_seconds max_task_hours : Int)
    (h0 : 0 ≤ remaining_seconds) (h1 : 1 ≤ max_task_hours)
    (h2 : issues ≠ []) (h3 : ∀ x ∈ issues, 1 ≤ x.weight) :
    ((build_day_payloads randNat choiceNat day issues
        remaining_seconds max_task_hours).length : Int) ≤ remaining_seconds / 3600 := by
  have hlen : 3600 * ((build_day_payloads randNat choiceNat day issues
      remaining_seconds max_task_hours).length : Int) ≤ remaining_seconds := by
    simp only [build_day_payloads]
    exact build_day_payloads_go_length randNat choiceNat _ _ day (by omega)
      remaining_seconds.toNat 0 (10 * 3600) remaining_seconds h0
  omega

theorem C4_entry_count_bounded_witness :
    ((build_day_payloads zeroFn zeroFn sampleDay sampleIssues 7200 2).length : Int)
      ≤ 7200 / 3600 :=
  C4_entry_count_bounded zeroFn zeroFn sampleDay sampleIssues 7200 2
    (by norm_num) (by norm_num) (by decide) (by decide)

/-- Claim C6: the first emitted entry (when one exists) starts exactly at
10:00:00 local time in the fixed UTC+3 offset on the target day, and the
start timestamps of successive entries are strictly increasing. -/
theorem C6_clock_starts_at_ten_and_increases (randNat choiceNat : Nat → Nat) (day : Date)
    (issues : List Issue) (remaining_seconds max_task_hours : Int)
    (h0 : 0 ≤ remaining_seconds) (h1 : 1 ≤ max_task_hours)
    (h2 : issues ≠ []) (h3 : ∀ x ∈ issues, 1 ≤ x.weight) :
    (∀ p, (build_day_payloads randNat choiceNat day issues
        remaining_seconds max_task_hours).head? = some p →
      p.2.started.day = day ∧ p.2.started.offsetSeconds = 10 * 3600 ∧
      p.2.started.tzSeconds = 3 * 3600) ∧
    List.Chain' (fun a b : String × Payload =>
        a.2.started.offsetSeconds < b.2.started.offsetSeconds)
      (build_day_payloads randNat choiceNat day issues remaining_seconds max_task_hours) := by
  constructor
  · intro p hp
    simp only [build_day_payloads] at hp
    exact build_day_payloads_go_head randNat choiceNat _ _ day _ 0 (10 * 3600)
      remaining_seconds p hp
  · simp only [build_day_payloads]
    exact build_day_payloads_go_mono randNat choiceNat _ _ day _ 0 (10 * 3600)
      remaining_seconds

theorem C6_clock_starts_at_ten_and_increases_witness :
    samplePair.2.started.day = sampleDay ∧
    samplePair.2.started.offsetSeconds = 10 * 3600 ∧
    samplePair.2.started.tzSeconds = 3 * 3600 :=
  (C6_clock_starts_at_ten_and_increases zeroFn zeroFn sampleDay sampleIssues 7200 2
    (by norm_num) (by norm_num) (by decide) (by decide)).1 samplePair (by decide)

/-- Claim C9: under the preconditions the emitted total is exactly
`3600 * ⌊remainingSeconds / 3600⌋`; equivalently the unallocated leftover
is exactly `remainingSeconds % 3600`. -/
theorem C9_exact_whole_hour_total (randNat choiceNat : Nat → Nat) (day : Date)
    (issues : List Issue) (remaining_seconds max_task_hours : Int)
    (h0 : 0 ≤ remaining_seconds) (h1 : 1 ≤ max_task_hours)
    (h2 : issues ≠ []) (h3 : ∀ x ∈ issues, 1 ≤ x.weight) :
    sumDur (build_day_payloads randNat choiceNat day issues remaining_seconds max_task_hours)
        = 3600 * (remaining_seconds / 3600) ∧
    remaining_seconds -
      sumDur (build_day_payloads randNat choiceNat day issues remaining_seconds max_task_hours)
        = remaining_seconds % 3600 := by
  have hle := build_day_payloads_sum_le randNat choiceNat day issues
    remaining_seconds max_task_hours h0 h1
  have hge := build_day_payloads_sum_ge randNat choiceNat day issues
    remaining_seconds max_task_hours
  have hdvd : (3600 : Int) ∣
      sumDur (build_day_payloads randNat choiceNat day issues
        remaining_seconds max_task_hours) := by
    simp only [build_day_payloads]
    exact build_day_payloads_go_dvd randNat choiceNat _ _ day _ 0 (10 * 3600)
      remaining_seconds
  obtain ⟨k, hk⟩ := hdvd
  omega

theorem C9_exact_whole_hour_total_witness :
    sumDur (build_day_payloads zeroFn zeroFn sampleDay sampleIssues 7200 2)
        = 3600 * (7200 / 3600) ∧
    (7200 : Int) - sumDur (build_day_payloads zeroFn zeroFn sampleDay sampleIssues 7200 2)
        = 7200 % 3600 :=
  C9_exact_whole_hour_total zeroFn zeroFn sampleDay sampleIssues 7200 2
    (by norm_num) (by norm_num) (by decide) (by decide)

/-- Claim C10: the emitted entries tile time contiguously: every entry
after the first starts exactly when its predecessor ends (same day, start
offset equal to the predecessor's start plus its duration), so there are
no gaps and no overlaps within a day. -/
theorem C10_entries_tile_contiguously (randNat choiceNat : Nat → Nat) (day : Date)
    (issues : List Issue) (remaining_seconds max_task_hours : Int) :
    List.Chain' (fun a b : String × Payload =>
        b.2.started.offsetSeconds = a.2.started.offsetSeconds + a.2.timeSpentSeconds ∧
        b.2.started.day = a.2.started.day)
      (build_day_payloads randNat choiceNat day issues remaining_seconds max_task_hours) := by
  simp only [build_day_payloads]
  exact build_day_payloads_go_chain randNat choiceNat _ _ day _ 0 (10 * 3600)
    remaining_seconds

/-- The per-day planning step of `main`'s fill loop (timesheet.py, lines
513-531), restricted to its pure part: given the configured daily hours,
the seconds already logged for the day and the per-entry maximum, either
skip the day (the `remaining_seconds < 3600` branch, which emits no
entries) or run the allocator on the remaining gap.  The I/O around it
(printing, posting, error counting) does not affect which entries are
generated. -/
def process_day (randNat choiceNat : Nat → Nat) (day : Date) (issues : List Issue)
    (daily_hours logged_seconds max_task_hours : Int) : List (String × Payload) :=
  let target_seconds := daily_hours * 3600
  let remaining_seconds := target_seconds - logged_seconds
  if remaining_seconds < 3600 then []
  else build_day_payloads randNat choiceNat day issues remaining_seconds max_task_hours

/-- Claim C5 counterexample: with a daily target of 1 hour and 0 seconds
already logged, the already-logged amount equals `target - 3600`, so the
claim's condition `logged ≥ target - 3600` holds, yet the day is not
skipped: the code only skips when the gap is strictly below one hour, and
here it emits one entry. -/
theorem C5_skip_threshold_counterexample :
    (1 * 3600 - 3600 : Int) ≤ 0 ∧
    process_day zeroFn zeroFn sampleDay sampleIssues 1 0 1 ≠ [] := by
  constructor
  · norm_num
  · decide

/-- Claim C5 as amended: the fill loop generates zero entries for a day
exactly when the already-logged seconds are strictly greater than
`target - 3600`, i.e. when the remaining gap `target - logged` is below
one hour.  (At `logged = target - 3600` exactly, the gap is exactly one
hour and one entry is still emitted.) -/
theorem C5_skip_threshold_amended (randNat choiceNat : Nat → Nat) (day : Date)
    (issues : List Issue) (daily_hours logged_seconds max_task_hours : Int) :
    process_day randNat choiceNat day issues daily_hours logged_seconds max_task_hours = [] ↔
      daily_hours * 3600 - logged_seconds < 3600 := by
  constructor
  · intro hnil
    by_contra hcon
    push_neg at hcon
    rw [process_day] at hnil
    simp only [if_neg (by omega : ¬(daily_hours * 3600 - logged_seconds < 3600))] at hnil
    have hge := build_day_payloads_sum_ge randNat choiceNat day issues
      (daily_hours * 3600 - logged_seconds) max_task_hours
    rw [hnil, sumDur_nil] at hge
    omega
  · intro h
    rw [process_day]
    simp only [if_pos h]

/-
Calendar model.  `timesheet.py` relies on `datetime.date` (construction,
ordering, `weekday`, `+ timedelta(days=1)`) and on
`calendar.monthrange(year, month)[1]`.  Those library semantics are the
proleptic Gregorian calendar, embedded below.  `Date.toOrdinal` is
CPython's `date.toordinal` (day 1 = 0001-01-01) and `Date.weekday` is
CPython's `date.weekday` (`(toordinal + 6) % 7`, Monday = 0).  CPython
additionally bounds years by MAXYEAR = 9999; no computation in this
repository approaches that bound, and it is not modelled (the successor
function below is the mathematical Gregorian successor).  MINYEAR = 1 is
modelled, through `Date.isValid`, because `subtract_one_month` can reach
it going backwards.
-/

/-- `calendar.isleap`: the Gregorian leap-year rule. -/
def isLeapYear (y : Nat) : Bool :=
  decide (y % 4 = 0 ∧ (y % 100 ≠ 0 ∨ y % 400 = 0))

/-- Length of month `m` in a year whose leap flag is `leap`. -/
def monthLength (leap : Bool) (m : Nat) : Nat :=
  if m = 2 then (if leap then 29 else 28)
  else if m = 4 ∨ m = 6 ∨ m = 9 ∨ m = 11 then 30
  else 31

/-- `calendar.monthrange(y, m)[1]`: the number of days of month `m` of
year `y`. -/
def daysInMonth (y m : Nat) : Nat := monthLength (isLeapYear y) m

/-- Number of days of a year with leap flag `leap`. -/
def yearLength (leap : Bool) : Nat := if leap then 366 else 365

/-- Days in all months of the year strictly before month `m` (for
`1 ≤ m ≤ 13`), with the year's leap flag `leap`. -/
def monthOffset (leap : Bool) : Nat → Nat
  | 0 => 0
  | m + 1 => if m = 0 then 0 else monthOffset leap m + monthLength leap m

/-- Days in all months of year `y` strictly before month `m`. -/
def daysBeforeMonth (y m : Nat) : Nat := monthOffset (isLeapYear y) m

/-- Days in all years strictly before year `y` (CPython's
`_days_before_year` closed formula). -/
def daysBeforeYear (y : Nat) : Nat :=
  365 * (y - 1) + (y - 1) / 4 - (y - 1) / 100 + (y - 1) / 400

/-- A structurally valid `datetime.date` value: this is exactly what the
`date` constructor accepts (year at least MINYEAR = 1, month 1-12, day
within the month; the MAXYEAR bound is not modelled, see above). -/
def Date.isValid (d : Date) : Prop :=
  1 ≤ d.year ∧ 1 ≤ d.month ∧ d.month ≤ 12 ∧ 1 ≤ d.day ∧
    d.day ≤ daysInMonth d.year d.month

instance (d : Date) : Decidable d.isValid := by
  unfold Date.isValid
  infer_instance

/-- CPython `date.toordinal`: 0001-01-01 is day 1. -/
def Date.toOrdinal (d : Date) : Nat :=
  daysBeforeYear d.year + daysBeforeMonth d.year d.month + d.day

/-- CPython `date.weekday`: Monday is 0, Sunday is 6. -/
def Date.weekday (d : Date) : Nat := (d.toOrdinal + 6) % 7

/-- CPython date ordering (`date.__le__` compares the year, month, day
triples lexicographically). -/
def Date.le (a b : Date) : Prop :=
  a.year < b.year ∨
    (a.year = b.year ∧ (a.month < b.month ∨ (a.month = b.month ∧ a.day ≤ b.day)))

instance (a b : Date) : Decidable (Date.le a b) := by
  unfold Date.le
  infer_instance

/-- Strict CPython date ordering. -/
def Date.lt (a b : Date) : Prop :=
  a.year < b.year ∨
    (a.year = b.year ∧ (a.month < b.month ∨ (a.month = b.month ∧ a.day < b.day)))

/-- `current + timedelta(days=1)`: the Gregorian successor of a date. -/
def nextDay (d : Date) : Date :=
  if d.day < daysInMonth d.year d.month then ⟨d.year, d.month, d.day + 1⟩
  else if d.month < 12 then ⟨d.year, d.month + 1, 1⟩
  else ⟨d.year + 1, 1, 1⟩

/-- The `while current <= end_date` loop of `working_days` (timesheet.py,
lines 357-361), fuelled by the number of iterations: each iteration
appends `current` when its weekday is Monday-Friday, then advances
`current` by one day. -/
def working_days_go (end_date : Date) : Nat → Date → List Date
  | 0, _ => []
  | fuel + 1, current =>
    if Date.le current end_date then
      (if current.weekday < 5 then [current] else []) ++
        working_days_go end_date fuel (nextDay current)
    else []

/-- `working_days` (timesheet.py, lines 355-362).  The fuel
`end.toOrdinal + 1 - start.toOrdinal` is exactly the number of loop
iterations (`nextDay` advances the ordinal by one, proved in
`nextDay_toOrdinal`), so the loop below exits at its own
`current <= end_date` test, never by fuel exhaustion. -/
def working_days (start_date end_date : Date) : List Date :=
  working_days_go end_date (end_date.toOrdinal + 1 - start_date.toOrdinal) start_date

/-- `subtract_one_month` (timesheet.py, lines 223-230):

    year = today.year
    month = today.month - 1
    if month == 0:
        month = 12
        year -= 1
    day = min(today.day, calendar.monthrange(year, month)[1])
    return date(year, month, day)

`calendar.monthrange` and the `date` constructor both raise `ValueError`
when the computed year falls below MINYEAR = 1 (i.e. for inputs in
January of year 1); the raise is embedded as `none`. -/
def subtract_one_month (today : Date) : Option Date :=
  let year := if today.month - 1 = 0 then today.year - 1 else today.year
  let month := if today.month - 1 = 0 then 12 else today.month - 1
  let day := min today.day (daysInMonth year month)
  if (Date.mk year month day).isValid then some ⟨year, month, day⟩ else none

theorem toOrdinal_epoch : Date.toOrdinal ⟨1, 1, 1⟩ = 1 := by decide

theorem weekday_anchor : Date.weekday ⟨2025, 1, 6⟩ = 0 := by decide

theorem monthLength_pos (b : Bool) (m : Nat) : 1 ≤ monthLength b m := by
  unfold monthLength
  split
  · split <;> norm_num
  · split <;> norm_num

theorem monthOffset_succ (b : Bool) (m : Nat) (hm : 1 ≤ m) :
    monthOffset b (m + 1) = monthOffset b m + monthLength b m := by
  simp only [monthOffset]
  rw [if_neg (by omega)]

theorem monthOffset_mono (b : Bool) {m1 m2 : Nat} (h : m1 ≤ m2) :
    monthOffset b m1 ≤ monthOffset b m2 := by
  induction m2 with
  | zero =>
    have hz : m1 = 0 := by omega
    subst hz
    exact le_refl _
  | succ n ih =>
    rcases Nat.lt_or_ge m1 (n + 1) with h1 | h1
    · have hle := ih (by omega)
      have hn : monthOffset b n ≤ monthOffset b (n + 1) := by
        rcases Nat.eq_zero_or_pos n with h0 | h0
        · subst h0; simp [monthOffset]
        · rw [monthOffset_succ b n h0]; omega
      omega
    · have hz : m1 = n + 1 := by omega
      subst hz
      exact le_refl _

theorem monthOffset_year (b : Bool) :
    monthOffset b 12 + monthLength b 12 = yearLength b := by
  cases b <;> decide

theorem monthOffset_le_year (b : Bool) :
    ∀ m, m < 13 → 1 ≤ m → monthOffset b m + monthLength b m ≤ yearLength b := by
  cases b <;> decide

theorem daysBeforeYear_succ (y : Nat) (hy : 1 ≤ y) :
    daysBeforeYear (y + 1) = daysBeforeYear y + yearLength (isLeapYear y) := by
  have hiff : isLeapYear y = true ↔ (y % 4 = 0 ∧ (y % 100 ≠ 0 ∨ y % 400 = 0)) := by
    simp [isLeapYear]
  cases hb : isLeapYear y
  · have hP : ¬(y % 4 = 0 ∧ (y % 100 ≠ 0 ∨ y % 400 = 0)) := by
      rw [← hiff, hb]; simp
    have hgoal : daysBeforeYear (y + 1) = daysBeforeYear y + 365 := by
      unfold daysBeforeYear
      rcases Nat.eq_zero_or_pos (y % 4) with h4 | h4
      · have h100 : y % 100 = 0 := by
          by_contra hcon
          exact hP ⟨h4, Or.inl hcon⟩
        have h400 : y % 400 ≠ 0 := fun hcon => hP ⟨h4, Or.inr hcon⟩
        omega
      · have h100 : y % 100 ≠ 0 := by omega
        have h400 : y % 400 ≠ 0 := by omega
        omega
    rw [hgoal]
    rfl
  · obtain ⟨h4, hor⟩ := hiff.mp hb
    have hgoal : daysBeforeYear (y + 1) = daysBeforeYear y + 366 := by
      unfold daysBeforeYear
      rcases hor with h100 | h400
      · have h400 : y % 400 ≠ 0 := by omega
        omega
      · have h100 : y % 100 = 0 := by omega
        omega
    rw [hgoal]
    rfl

theorem daysBeforeYear_mono {y1 y2 : Nat} (h : y1 ≤ y2) :
    daysBeforeYear y1 ≤ daysBeforeYear y2 := by
  induction y2 with
  | zero =>
    have hz : y1 = 0 := by omega
    subst hz
    exact Nat.le_refl _
  | succ n ih =>
    rcases Nat.lt_or_ge y1 (n + 1) with h1 | h1
    · have hle := ih (by omega)
      have hstep : daysBeforeYear n ≤ daysBeforeYear (n + 1) := by
        rcases Nat.eq_zero_or_pos n with h0 | h0
        · subst h0; decide
        · rw [daysBeforeYear_succ n h0]; omega
      omega
    · have hz : y1 = n + 1 := by omega
      subst hz
      exact Nat.le_refl _

theorem toOrdinal_le_year_end (d : Date) (hv : d.isValid) :
    d.toOrdinal ≤ daysBeforeYear d.year + yearLength (isLeapYear d.year) := by
  obtain ⟨h1, h2, h3, h4, h5⟩ := hv
  have hb := monthOffset_le_year (isLeapYear d.year) d.month (by omega) h2
  unfold Date.toOrdinal daysBeforeMonth
  unfold daysInMonth at h5
  omega

theorem toOrdinal_lt_of_lt (a b : Date) (ha : a.isValid) (hb : b.isValid)
    (h : Date.lt a b) : a.toOrdinal < b.toOrdinal := by
  rcases h with hy | ⟨hy, hm | ⟨hm, hd⟩⟩
  · have h1 := toOrdinal_le_year_end a ha
    have h2 := daysBeforeYear_succ a.year ha.1
    have h3 : daysBeforeYear (a.year + 1) ≤ daysBeforeYear b.year :=
      daysBeforeYear_mono (by omega)
    have h4 : daysBeforeYear b.year < b.toOrdinal := by
      have hd1 : 1 ≤ b.day := hb.2.2.2.1
      unfold Date.toOrdinal
      omega
    omega
  · have ha2 : 1 ≤ a.month := ha.2.1
    have ha5 : a.day ≤ daysInMonth a.year a.month := ha.2.2.2.2
    have hb4 : 1 ≤ b.day := hb.2.2.2.1
    unfold Date.toOrdinal daysBeforeMonth
    rw [hy]
    rw [hy] at ha5
    unfold daysInMonth at ha5
    have hstep := monthOffset_succ (isLeapYear b.year) a.month ha2
    have hmono : monthOffset (isLeapYear b.year) (a.month + 1) ≤
        monthOffset (isLeapYear b.year) b.month := monthOffset_mono _ (by omega)
    omega
  · unfold Date.toOrdinal
    rw [hy, hm]
    omega

theorem Date.le_refl (a : Date) : Date.le a a :=
  Or.inr ⟨rfl, Or.inr ⟨rfl, Nat.le_refl _⟩⟩

theorem Date.le_iff_toOrdinal {a b : Date} (ha : a.isValid) (hb : b.isValid) :
    Date.le a b ↔ a.toOrdinal ≤ b.toOrdinal := by
  constructor
  · intro h
    have hcases : Date.lt a b ∨ a = b := by
      obtain ⟨a1, a2, a3⟩ := a
      obtain ⟨b1, b2, b3⟩ := b
      simp only [Date.le] at h
      simp only [Date.lt, Date.mk.injEq]
      omega
    rcases hcases with h1 | h1
    · exact Nat.le_of_lt (toOrdinal_lt_of_lt a b ha hb h1)
    · rw [h1]
  · intro h
    by_contra hc
    have hlt : Date.lt b a := by
      obtain ⟨a1, a2, a3⟩ := a
      obtain ⟨b1, b2, b3⟩ := b
      simp only [Date.le] at hc
      simp only [Date.lt]
      omega
    have := toOrdinal_lt_of_lt b a hb ha hlt
    omega

theorem toOrdinal_inj {a b : Date} (ha : a.isValid) (hb : b.isValid)
    (h : a.toOrdinal = b.toOrdinal) : a = b := by
  by_contra hne
  have htri : Date.lt a b ∨ Date.lt b a := by
    obtain ⟨a1, a2, a3⟩ := a
    obtain ⟨b1, b2, b3⟩ := b
    simp only [Date.mk.injEq] at hne
    simp only [Date.lt]
    omega
  rcases htri with h1 | h1
  · have := toOrdinal_lt_of_lt a b ha hb h1; omega
  · have := toOrdinal_lt_of_lt b a hb ha h1; omega

theorem nextDay_isValid (d : Date) (hv : d.isValid) : (nextDay d).isValid := by
  obtain ⟨h1, h2, h3, h4, h5⟩ := hv
  unfold nextDay
  split
  · rename_i hlt
    refine ⟨h1, h2, h3, ?_, ?_⟩
    · show 1 ≤ d.day + 1
      omega
    · show d.day + 1 ≤ daysInMonth d.year d.month
      omega
  · rename_i hge
    split
    · rename_i hm
      refine ⟨h1, ?_, ?_, ?_, ?_⟩
      · show 1 ≤ d.month + 1
        omega
      · show d.month + 1 ≤ 12
        omega
      · show 1 ≤ 1
        exact Nat.le_refl 1
      · show 1 ≤ daysInMonth d.year (d.month + 1)
        exact monthLength_pos _ _
    · refine ⟨?_, ?_, ?_, ?_, ?_⟩
      · show 1 ≤ d.year + 1
        omega
      · show 1 ≤ 1
        exact Nat.le_refl 1
      · show (1 : Nat) ≤ 12
        norm_num
      · show 1 ≤ 1
        exact Nat.le_refl 1
      · show 1 ≤ daysInMonth (d.year + 1) 1
        exact monthLength_pos _ _

theorem nextDay_toOrdinal (d : Date) (hv : d.isValid) :
    (nextDay d).toOrdinal = d.toOrdinal + 1 := by
  obtain ⟨h1, h2, h3, h4, h5⟩ := hv
  unfold nextDay
  split
  · show daysBeforeYear d.year + daysBeforeMonth d.year d.month + (d.day + 1) =
      daysBeforeYear d.year + daysBeforeMonth d.year d.month + d.day + 1
    omega
  · rename_i hno
    split
    · have hd : d.day = daysInMonth d.year d.month := by omega
      show daysBeforeYear d.year + daysBeforeMonth d.year (d.month + 1) + 1 =
        daysBeforeYear d.year + daysBeforeMonth d.year d.month + d.day + 1
      unfold daysBeforeMonth
      rw [monthOffset_succ (isLeapYear d.year) d.month h2]
      unfold daysInMonth at hd
      omega
    · rename_i hno2
      have hm : d.month = 12 := by omega
      have hd : d.day = daysInMonth d.year d.month := by omega
      show daysBeforeYear (d.year + 1) + daysBeforeMonth (d.year + 1) 1 + 1 =
        daysBeforeYear d.year + daysBeforeMonth d.year d.month + d.day + 1
      unfold daysBeforeMonth
      rw [daysBeforeYear_succ d.year h1]
      have hmo1 : monthOffset (isLeapYear (d.year + 1)) 1 = 0 := by
        simp [monthOffset]
      have hyr := monthOffset_year (isLeapYear d.year)
      unfold daysInMonth at hd
      rw [hm] at hd
      rw [hm]
      omega

/-- Characterisation of the `working_days` loop: starting from a valid
`current` whose ordinal is exactly `fuel` days before the day after
`end_date`, the loop returns precisely the valid dates between `current`
and `end_date` (inclusive, in CPython date order) whose weekday is
Monday-Friday. -/
theorem working_days_go_mem (e : Date) (he : e.isValid) :
    ∀ (fuel : Nat) (c : Date), c.isValid → c.toOrdinal + fuel = e.toOrdinal + 1 →
      ∀ d : Date, d ∈ working_days_go e fuel c ↔
        (d.isValid ∧ Date.le c d ∧ Date.le d e ∧ d.weekday < 5) := by
  intro fuel
  induction fuel with
  | zero =>
    intro c hc hord d
    constructor
    · intro h
      simp [working_days_go] at h
    · rintro ⟨hd, hcd, hde, hw⟩
      exfalso
      have h1 : c.toOrdinal ≤ d.toOrdinal := (Date.le_iff_toOrdinal hc hd).mp hcd
      have h2 : d.toOrdinal ≤ e.toOrdinal := (Date.le_iff_toOrdinal hd he).mp hde
      omega
  | succ n ih =>
    intro c hc hord d
    have hce : Date.le c e := by
      refine (Date.le_iff_toOrdinal hc he).mpr ?_
      omega
    have hnv : (nextDay c).isValid := nextDay_isValid c hc
    have hno : (nextDay c).toOrdinal = c.toOrdinal + 1 := nextDay_toOrdinal c hc
    have ihx := ih (nextDay c) hnv (by omega) d
    simp only [working_days_go]
    rw [if_pos hce, List.mem_append, ihx]
    constructor
    · rintro (hmem | ⟨hdv, hnd, hde, hw⟩)
      · by_cases hw : c.weekday < 5
        · rw [if_pos hw] at hmem
          simp only [List.mem_singleton] at hmem
          subst hmem
          exact ⟨hc, Date.le_refl d, hce, hw⟩
        · rw [if_neg hw] at hmem
          simp at hmem
      · refine ⟨hdv, ?_, hde, hw⟩
        have hord2 := (Date.le_iff_toOrdinal hnv hdv).mp hnd
        exact (Date.le_iff_toOrdinal hc hdv).mpr (by omega)
    · rintro ⟨hdv, hcd, hde, hw⟩
      by_cases heq : d = c
      · subst heq
        left
        rw [if_pos hw]
        simp
      · right
        have h1 : c.toOrdinal ≤ d.toOrdinal := (Date.le_iff_toOrdinal hc hdv).mp hcd
        have h2 : c.toOrdinal ≠ d.toOrdinal := by
          intro hh
          exact heq (toOrdinal_inj hdv hc hh.symm)
        exact ⟨hdv, (Date.le_iff_toOrdinal hnv hdv).mpr (by omega), hde, hw⟩

/-- Claim C7: for every pair of valid dates `start <= end`,
`working_days start end` returns exactly the Monday-to-Friday dates of
the inclusive range and no Saturday or Sunday; in particular on the
Monday-to-Sunday span 2025-01-06 to 2025-01-12 it returns exactly the
five weekdays. -/
theorem C7_working_days_weekdays (start_date end_date : Date)
    (hs : start_date.isValid) (he : end_date.isValid)
    (hse : Date.le start_date end_date) :
    (∀ d : Date, d ∈ working_days start_date end_date ↔
        (d.isValid ∧ Date.le start_date d ∧ Date.le d end_date ∧ d.weekday < 5)) ∧
    working_days ⟨2025, 1, 6⟩ ⟨2025, 1, 12⟩ =
      [⟨2025, 1, 6⟩, ⟨2025, 1, 7⟩, ⟨2025, 1, 8⟩, ⟨2025, 1, 9⟩, ⟨2025, 1, 10⟩] := by
  constructor
  · intro d
    have hord : start_date.toOrdinal ≤ end_date.toOrdinal :=
      (Date.le_iff_toOrdinal hs he).mp hse
    unfold working_days
    exact working_days_go_mem end_date he _ start_date hs (by omega) d
  · decide

theorem C7_working_days_weekdays_witness :
    (⟨2025, 1, 7⟩ : Date) ∈ working_days ⟨2025, 1, 6⟩ ⟨2025, 1, 12⟩ :=
  ((C7_working_days_weekdays ⟨2025, 1, 6⟩ ⟨2025, 1, 12⟩ (by decide) (by decide)
    (by decide)).1 ⟨2025, 1, 7⟩).mpr (by decide)

/-- Claim C8 counterexample: 0001-01-15 is a valid `datetime.date`, but
`subtract_one_month` does not return a date for it: the computed previous
month lies in year 0, which `calendar.monthrange` and the `date`
constructor reject (`ValueError`), embedded as `none`. -/
theorem C8_subtract_one_month_counterexample :
    Date.isValid ⟨1, 1, 15⟩ ∧ subtract_one_month ⟨1, 1, 15⟩ = none := by
  decide

/-- Claim C8 as amended: for every valid calendar date other than those
in January of year 1 (where there is no representable previous month and
the code raises `ValueError`), `subtract_one_month` returns a valid date
in the previous month - wrapping to December of the previous year for
January inputs - whose day-of-month is the minimum of the input's
day-of-month and the length of that previous month.  In particular on a
month-end date such as March 31 it returns the last valid day of the
prior month, never an invalid date. -/
theorem C8_subtract_one_month_amended (today : Date) (hv : today.isValid)
    (hjan1 : ¬(today.year = 1 ∧ today.month = 1)) :
    ∃ r : Date, subtract_one_month today = some r ∧ r.isValid ∧
      ((2 ≤ today.month ∧ r.year = today.year ∧ r.month = today.month - 1) ∨
        (today.month = 1 ∧ r.year = today.year - 1 ∧ r.month = 12)) ∧
      r.day = min today.day (daysInMonth r.year r.month) := by
  obtain ⟨hy, hm1, hm2, hd1, hd2⟩ := hv
  by_cases hm : today.month = 1
  · have hy2 : 2 ≤ today.year := by
      rcases Nat.lt_or_ge today.year 2 with h | h
      · exact absurd ⟨by omega, hm⟩ hjan1
      · exact h
    have hc1 : today.month - 1 = 0 := by omega
    have hval : (Date.mk (today.year - 1) 12
        (min today.day (daysInMonth (today.year - 1) 12))).isValid := by
      refine ⟨?_, ?_, ?_, le_min hd1 (monthLength_pos _ _), min_le_right _ _⟩
      · show 1 ≤ today.year - 1
        omega
      · show (1 : Nat) ≤ 12
        norm_num
      · show (12 : Nat) ≤ 12
        norm_num
    refine ⟨⟨today.year - 1, 12, min today.day (daysInMonth (today.year - 1) 12)⟩,
      ?_, hval, Or.inr ⟨hm, rfl, rfl⟩, rfl⟩
    simp [subtract_one_month, hc1, hval]
  · have hc1 : ¬(today.month - 1 = 0) := by omega
    have hval : (Date.mk today.year (today.month - 1)
        (min today.day (daysInMonth today.year (today.month - 1)))).isValid := by
      refine ⟨hy, ?_, ?_, le_min hd1 (monthLength_pos _ _), min_le_right _ _⟩
      · show 1 ≤ today.month - 1
        omega
      · show today.month - 1 ≤ 12
        omega
    refine ⟨⟨today.year, today.month - 1,
        min today.day (daysInMonth today.year (today.month - 1))⟩,
      ?_, hval, Or.inl ⟨by omega, rfl, rfl⟩, rfl⟩
    simp [subtract_one_month, hc1, hval]

theorem C8_subtract_one_month_amended_witness :
    ∃ r : Date, subtract_one_month ⟨2025, 3, 31⟩ = some r ∧ r.isValid ∧
      ((2 ≤ (3 : Nat) ∧ r.year = 2025 ∧ r.month = 3 - 1) ∨
        ((3 : Nat) = 1 ∧ r.year = 2025 - 1 ∧ r.month = 12)) ∧
      r.day = min 31 (daysInMonth r.year r.month) :=
  C8_subtract_one_month_amended ⟨2025, 3, 31⟩ (by decide) (by decide)
